import Mathlib

/-!
Verification of the fill-ledger / metrics-derivation core of the
obsidian-ace-trading repository, shallowly embedded in Lean 4.

JavaScript numbers are modelled as exact rationals (ℚ); the only
non-finite value that can reach the core's arithmetic is NaN (from a
malformed numeric field), modelled by the `JNum` type.  Wherever the
source guards a value with JS truthiness (`x ? … : …`, `x || d`,
`!!x`), the model tests `≠ 0` on rationals, `≠ ""` on strings and
`isSome` plus the corresponding test on options, exactly following the
falsy set {0, NaN, "", null, undefined}.
-/

namespace AceTrading

/-- A JavaScript number: either a finite value (modelled exactly as a
rational) or NaN.  Infinities never arise in the code under study
(every division is guarded by a truthiness check on the denominator). -/
inductive JNum where
  | fin (q : ℚ)
  | nan
deriving DecidableEq, Repr

/-- `x || 0` applied to a JS number: NaN is falsy and becomes 0;
a finite value is kept (0 stays 0). -/
def jor0 : JNum → ℚ
  | .fin q => q
  | .nan => 0

/-- JS multiplication: NaN is absorbing. -/
def jmul : JNum → JNum → JNum
  | .fin a, .fin b => .fin (a * b)
  | _, _ => .nan

/-- JS `Math.abs`: NaN maps to NaN. -/
def jabsJ : JNum → JNum
  | .fin a => .fin |a|
  | .nan => .nan

/-- JS division restricted to the uses in this code: the denominator is
never 0 on any reachable path (all divisions are guarded), so the 0
case is mapped to NaN rather than Infinity. -/
def jdiv : JNum → JNum → JNum
  | .fin a, .fin b => if b = 0 then .nan else .fin (a / b)
  | _, _ => .nan

/-- JS comparison `x > 0`: false for NaN. -/
def jgt0 : JNum → Bool
  | .fin a => decide (0 < a)
  | .nan => false

/-- `Math.round(x)`: nearest integer, ties toward +∞ (`⌊x + 1/2⌋`). -/
def mround (x : ℚ) : ℤ := ⌊x + 1 / 2⌋

/-- `round(x, places)` from the source on a finite value:
`Math.round(x * 10^places) / 10^places`. -/
def roundQ (x : ℚ) (places : ℕ) : ℚ :=
  (mround (x * 10 ^ places) : ℚ) / 10 ^ places

/-- `round` at its default precision of 10 decimal places. -/
def rnd10 (x : ℚ) : ℚ := roundQ x 10

/-- The source's `round`: `null` in (absent) maps to `null`,
a non-finite number (NaN here) maps to `null`, a finite value is
rounded to 10 places. -/
def jsRound : Option JNum → Option ℚ
  | none => none
  | some .nan => none
  | some (.fin q) => some (rnd10 q)

/-- JS truthiness of an optional string: absent, and the empty string,
are falsy. -/
def truthyStr : Option String → Bool
  | none => false
  | some s => decide (s ≠ "")

/-- `String(n).padStart(2, '0')` for a natural number. -/
def pad (n : ℕ) : String :=
  let s := toString n
  if s.length < 2 then "0" ++ s else s

/-- The UTC components a `Date` exposes through `getUTCFullYear`,
`getUTCMonth` (0-based), `getUTCDate`, `getUTCHours`, `getUTCMinutes`;
the only parts `toIsoUtc` reads. -/
structure JSDate where
  year : ℕ
  monthIndex : ℕ
  day : ℕ
  hour : ℕ
  minute : ℕ
deriving DecidableEq, Repr

/-- `toIsoUtc`: canonical minute-precision UTC string
`YYYY-MM-DDTHH:MM:00.000Z`. -/
def toIsoUtc (d : JSDate) : String :=
  toString d.year ++ "-" ++ pad (d.monthIndex + 1) ++ "-" ++ pad d.day ++
    "T" ++ pad d.hour ++ ":" ++ pad d.minute ++ ":00.000Z"

/-- Value of a decimal digit character, `none` otherwise. -/
def digit? (c : Char) : Option ℕ :=
  if c.isDigit then some (c.toNat - 48) else none

/-- Two decimal digits. -/
def num2 (a b : Char) : Option ℕ := do
  let x ← digit? a
  let y ← digit? b
  pure (10 * x + y)

/-- Three decimal digits. -/
def num3 (a b c : Char) : Option ℕ := do
  let x ← digit? a
  let y ← digit? b
  let z ← digit? c
  pure (100 * x + 10 * y + z)

/-- Four decimal digits. -/
def num4 (a b c d : Char) : Option ℕ := do
  let x ← num2 a b
  let y ← num2 c d
  pure (100 * x + y)

/-- Days since the Unix epoch of a proleptic-Gregorian civil date
(Hinnant's `days_from_civil` algorithm, as used by every conforming
`Date` implementation). -/
def daysFromCivil (y : ℤ) (m d : ℕ) : ℤ :=
  let y' : ℤ := if m ≤ 2 then y - 1 else y
  let era : ℤ := Int.fdiv y' 400
  let yoe : ℤ := y' - era * 400
  let mp : ℤ := ((m : ℤ) + 9) % 12
  let doy : ℤ := Int.fdiv (153 * mp + 2) 5 + (d : ℤ) - 1
  let doe : ℤ := yoe * 365 + Int.fdiv yoe 4 - Int.fdiv yoe 100 + doy
  era * 146097 + doe - 719468

/-- `Date.parse` modelled on the canonical ISO form that this code
itself produces (`toIsoUtc` / `toISOString`):
`YYYY-MM-DDTHH:MM:SS.mmmZ` parses to milliseconds since the Unix
epoch; every other string is treated as unparsable (`NaN` in JS,
`none` here). -/
def dateParse (s : String) : Option ℤ :=
  match s.toList with
  | [y1, y2, y3, y4, c1, m1, m2, c2, d1, d2, t0,
     h1, h2, c3, n1, n2, c4, s1, s2, c5, f1, f2, f3, z0] =>
    if c1 = '-' ∧ c2 = '-' ∧ t0 = 'T' ∧ c3 = ':' ∧ c4 = ':' ∧ c5 = '.' ∧ z0 = 'Z' then do
      let y ← num4 y1 y2 y3 y4
      let mo ← num2 m1 m2
      let da ← num2 d1 d2
      let h ← num2 h1 h2
      let mi ← num2 n1 n2
      let se ← num2 s1 s2
      let ms ← num3 f1 f2 f3
      if 1 ≤ mo ∧ mo ≤ 12 ∧ 1 ≤ da ∧ da ≤ 31 ∧ h ≤ 23 ∧ mi ≤ 59 ∧ se ≤ 59 then
        pure ((daysFromCivil (y : ℤ) mo da * 86400 +
          (h : ℤ) * 3600 + (mi : ℤ) * 60 + (se : ℤ)) * 1000 + (ms : ℤ))
      else none
    else none
  | _ => none

/-- The fill side as supplied to `buildFill` ("in" | "out"). -/
inductive Side where
  | inn
  | out
deriving DecidableEq, Repr

/-- String form of a `Side`. -/
def sideStr : Side → String
  | .inn => "in"
  | .out => "out"

/-- A fill record as it reaches `computeMetrics` from the document
store: every field may be missing (the code reads them with `f?.side`,
`f?.base || 0`, `f.t || ''` style defensive access), and numeric
fields may be NaN. -/
structure Fill where
  side : Option String
  t : Option String
  base : Option JNum
  quote : Option JNum
  price : Option JNum
  note : Option String
  txs : List String
deriving DecidableEq, Repr

/-- The slice of the trade frontmatter `computeMetrics` reads.
`fills = none` covers both a missing field and a non-array value
(the code tests `Array.isArray`). -/
structure TradeRec where
  action : Option String
  initial_stop : Option JNum
  closed_at : Option String
  fills : Option (List Fill)
deriving DecidableEq, Repr

/-- The metrics object.  `last_fill_at` and `computed_at` are doubly
optional: the outer `none` means the key is absent from the returned
object (the empty-ledger early return omits them), the inner option is
the JS `null`.  `last_fill_at` carries the instant in epoch
milliseconds (the source stores `new Date(ms).toISOString()`, a
bijective image of the same value). -/
structure Metrics where
  status : String
  position : Option ℚ
  avg_entry : Option ℚ
  avg_exit : Option ℚ
  realized_pnl : Option ℚ
  r_multiple : Option ℚ
  win : Option Bool
  last_fill_at : Option (Option ℤ)
  computed_at : Option ℤ
deriving DecidableEq, Repr

/-- The early return for an empty (or absent) fill list: all aggregate
fields null, no `last_fill_at`, no `computed_at`. -/
def emptyMetrics : Metrics :=
  { status := "open", position := none, avg_entry := none, avg_exit := none,
    realized_pnl := none, r_multiple := none, win := none,
    last_fill_at := none, computed_at := none }

/-- `Number(f?.base || 0)`: a missing field and NaN are falsy and
coerce to 0; a finite number passes through. -/
def coerceNum : Option JNum → ℚ
  | none => 0
  | some .nan => 0
  | some (.fin q) => q

/-- `(f?.side || 'in')`: a missing or empty side string defaults to
"in". -/
def jsSide (f : Fill) : String :=
  match f.side with
  | none => "in"
  | some s => if s = "" then "in" else s

/-- The four accumulators of the aggregation loop. -/
structure Sums where
  inB : ℚ
  inQ : ℚ
  outB : ℚ
  outQ : ℚ
deriving DecidableEq, Repr

/-- One iteration of the aggregation loop: an "in" side adds to the
entry accumulators, any other side to the exit accumulators. -/
def accumFill (s : Sums) (f : Fill) : Sums :=
  let b := coerceNum f.base
  let q := coerceNum f.quote
  if jsSide f = "in" then ⟨s.inB + b, s.inQ + q, s.outB, s.outQ⟩
  else ⟨s.inB, s.inQ, s.outB + b, s.outQ + q⟩

/-- The full aggregation over the fill list. -/
def sumFills (fills : List Fill) : Sums :=
  fills.foldl accumFill ⟨0, 0, 0, 0⟩

/-- `avgEntry = inB ? abs(inQ)/abs(inB) : null` (unrounded). -/
def avgEntryOf (s : Sums) : Option ℚ :=
  if s.inB ≠ 0 then some (|s.inQ| / |s.inB|) else none

/-- `avgExit = outB ? abs(outQ)/abs(outB) : null` (unrounded). -/
def avgExitOf (s : Sums) : Option ℚ :=
  if s.outB ≠ 0 then some (|s.outQ| / |s.outB|) else none

/-- `position = round(inB + outB)` (finite input, so never null). -/
def positionOf (s : Sums) : ℚ := rnd10 (s.inB + s.outB)

/-- `directionalDiff = abs(outQ) - avgEntry * exitedUnits`; only used
under the guard `inB ≠ 0`, where `avgEntry = |inQ| / |inB|`. -/
def directionalDiff (s : Sums) : ℚ :=
  |s.outQ| - (|s.inQ| / |s.inB|) * |s.outB|

/-- The trade-direction sign:
`action === 'short' ? -1 : action === 'long' ? 1 : (inB < 0 ? -1 : 1)`. -/
def dirOf (action : Option String) (inB : ℚ) : ℚ :=
  if action = some "short" then -1
  else if action = some "long" then 1
  else if inB < 0 then -1 else 1

/-- Realized PnL of the direction-aware variant:
`if (exitedUnits && inB) realized = round(dir * directionalDiff)`. -/
def realizedOf (action : Option String) (s : Sums) : Option ℚ :=
  if |s.outB| ≠ 0 ∧ s.inB ≠ 0 then
    some (rnd10 (dirOf action s.inB * directionalDiff s))
  else none

/-- Realized PnL of the historical variant, which omits the
direction sign: `realized = round(abs(outQ) - avgEntry*exitedUnits)`. -/
def realizedLegacyOf (s : Sums) : Option ℚ :=
  if |s.outB| ≠ 0 ∧ s.inB ≠ 0 then
    some (rnd10 (directionalDiff s))
  else none

/-- `status = (position === 0 || !!fm.closed_at) ? 'closed' : 'open'`. -/
def statusOf (closedAt : Option String) (pos : ℚ) : String :=
  if pos = 0 ∨ truthyStr closedAt then "closed" else "open"

/-- The r-multiple:
`if (fm.initial_stop != null && avgEntry != null && exitedUnits) {
   rpu = abs(avgEntry - Number(initial_stop));
   if (rpu > 0) rMultiple = round((realized ?? 0) / (rpu * exitedUnits)); }`.
A NaN stop gives `rpu = NaN`, and `NaN > 0` is false, so the result
stays null. -/
def rMultipleOf (stop : Option JNum) (avgEntry : Option ℚ)
    (exitedUnits : ℚ) (realized : Option ℚ) : Option ℚ :=
  match stop, avgEntry with
  | some (.fin sv), some ae =>
    if exitedUnits ≠ 0 then
      let rpu := |ae - sv|
      if 0 < rpu then some (rnd10 (realized.getD 0 / (rpu * exitedUnits)))
      else none
    else none
  | some .nan, _ => none
  | none, _ => none
  | some (.fin _), none => none

/-- One step of the `lastFillAt` reduce: an unparsable timestamp
(`Date.parse` NaN) leaves the accumulator unchanged, a parsable one
takes the max. -/
def lastFillStep (mx : ℤ) (f : Fill) : ℤ :=
  match dateParse (f.t.getD "") with
  | none => mx
  | some t => max mx t

/-- `fills.reduce((mx, f) => …, 0)`: maximum parsed fill timestamp in
epoch milliseconds, starting from accumulator 0. -/
def lastFillMs (fills : List Fill) : ℤ :=
  fills.foldl lastFillStep 0

/-- The non-empty-ledger branch of `computeMetrics` (both variants
share everything except the realized-PnL formula). -/
def metricsOfFills (fm : TradeRec) (now : ℤ) (fills : List Fill) : Metrics :=
  let s := sumFills fills
  let realized := realizedOf fm.action s
  { status := statusOf fm.closed_at (positionOf s),
    position := some (positionOf s),
    avg_entry := (avgEntryOf s).map rnd10,
    avg_exit := (avgExitOf s).map rnd10,
    realized_pnl := realized,
    r_multiple := rMultipleOf fm.initial_stop (avgEntryOf s) |s.outB| realized,
    win := realized.map (fun r => decide (0 < r)),
    last_fill_at := some (if lastFillMs fills ≠ 0 then some (lastFillMs fills) else none),
    computed_at := some now }

/-- `computeMetrics` (direction-aware variant, the first one in the
source).  `now` is the wall-clock instant read by `new Date()` for
`computed_at`, passed explicitly to keep the function pure. -/
def computeMetrics (fm : TradeRec) (now : ℤ) : Metrics :=
  match fm.fills with
  | none => emptyMetrics
  | some [] => emptyMetrics
  | some fills => metricsOfFills fm now fills

/-- The non-empty-ledger branch of the historical variant. -/
def metricsOfFillsLegacy (fm : TradeRec) (now : ℤ) (fills : List Fill) : Metrics :=
  let s := sumFills fills
  let realized := realizedLegacyOf s
  { status := statusOf fm.closed_at (positionOf s),
    position := some (positionOf s),
    avg_entry := (avgEntryOf s).map rnd10,
    avg_exit := (avgExitOf s).map rnd10,
    realized_pnl := realized,
    r_multiple := rMultipleOf fm.initial_stop (avgEntryOf s) |s.outB| realized,
    win := realized.map (fun r => decide (0 < r)),
    last_fill_at := some (if lastFillMs fills ≠ 0 then some (lastFillMs fills) else none),
    computed_at := some now }

/-- The historical `computeMetrics` variant (the second copy in the
source), identical except that the realized-PnL line omits the
direction sign. -/
def computeMetricsLegacy (fm : TradeRec) (now : ℤ) : Metrics :=
  match fm.fills with
  | none => emptyMetrics
  | some [] => emptyMetrics
  | some fills => metricsOfFillsLegacy fm now fills

/-- `expectedQuoteSign(dir, side) = side === 'in' ? -dir : dir`. -/
def expectedQuoteSign (dir : ℚ) (side : Side) : ℚ :=
  if side = .inn then -dir else dir

/-- The options record `buildFill` receives. -/
structure BuildOpts where
  dir : JNum
  side : Side
  amount : JNum
  price : Option JNum
  quote : Option JNum
  whenAt : Option JSDate
  note : Option String
  txs : List String

/-- `buildFill`.  `nowD` models the `new Date()` default used when no
explicit time is supplied. -/
def buildFill (nowD : JSDate) (o : BuildOpts) : Fill :=
  let whenD := o.whenAt.getD nowD
  let baseAbs : ℚ := |jor0 o.amount|
  let baseSign : JNum := jmul o.dir (.fin (if o.side = .inn then 1 else -1))
  let base : ℚ := (jsRound (some (jmul baseSign (.fin baseAbs)))).getD 0
  let pq : Option JNum × Option JNum :=
    match o.price, o.quote with
    | some p, q0 =>
      if jgt0 p then
        (some p, (jsRound (some (jmul (.fin (-base)) p))).map JNum.fin)
      else
        match q0 with
        | some q =>
          if q ≠ JNum.fin 0 then
            ((jsRound (some (jdiv (jabsJ q) (.fin (if base = 0 then 1 else |base|))))).map JNum.fin,
              some q)
          else (some p, some q)
        | none => (some p, none)
    | none, some q =>
      if q ≠ JNum.fin 0 then
        ((jsRound (some (jdiv (jabsJ q) (.fin (if base = 0 then 1 else |base|))))).map JNum.fin,
          some q)
      else (none, some q)
    | none, none => (none, none)
  { side := some (sideStr o.side),
    t := some (toIsoUtc whenD),
    base := some (.fin base),
    quote := some (.fin ((jsRound pq.2).getD 0)),
    price := some (.fin ((jsRound pq.1).getD 0)),
    note := match o.note with
      | some s => if s ≠ "" then some s else none
      | none => none,
    txs := if o.txs = [] then [] else o.txs }

/-! Concrete records used to exercise the definitions. -/

/-- A fill with an explicit timestamp string. -/
def mkFillT (sd tstr : String) (b q : ℚ) : Fill :=
  ⟨some sd, some tstr, some (.fin b), some (.fin q), some (.fin 0), none, []⟩

/-- A fill with a fixed valid timestamp. -/
def mkFill (sd : String) (b q : ℚ) : Fill :=
  mkFillT sd "2023-02-01T10:00:00.000Z" b q

/-- A record with no fills field at all. -/
def noFillsRec : TradeRec := ⟨none, none, none, none⟩

/-- Short trade, Enter 1 unit @100, Exit 1 unit @80 (fills as
`buildFill` would sign them for a short: entry base is negative). -/
def shortProfitFills : List Fill := [mkFill "in" (-1) 100, mkFill "out" 1 (-80)]

/-- The short-with-profit record. -/
def shortProfitRec : TradeRec := ⟨some "short", none, none, some shortProfitFills⟩

/-- Fills with an Exit fill whose base is 0: the ledger contains an
Exit fill, yet the accumulated exited base is 0. -/
def zeroExitFills : List Fill := [mkFill "in" 1 (-100), mkFill "out" 0 50]

/-- Record around `zeroExitFills`. -/
def zeroExitRec : TradeRec := ⟨none, none, none, some zeroExitFills⟩

/-- Short trade hitting an exact rounding tie at the 10th decimal:
`directionalDiff = -1/(2·10^10)`. -/
def tieFills : List Fill :=
  [mkFill "in" 1 (-(100 + 1 / 20000000000)), mkFill "out" (-1) 100]

/-- Record around `tieFills`. -/
def tieRec : TradeRec := ⟨some "short", none, none, some tieFills⟩

/-- An Enter-only ledger with a negative base and zero quote. -/
def enterOnlyFills : List Fill := [mkFill "in" (-1) 0]

/-- Record around `enterOnlyFills`. -/
def enterOnlyRec : TradeRec := ⟨none, none, none, some enterOnlyFills⟩

/-- Nonzero position with `closed_at` present but equal to the empty
string. -/
def emptyClosedAtRec : TradeRec := ⟨none, none, some "", some [mkFill "in" 1 (-100)]⟩

/-- Nonzero position with a non-empty `closed_at`. -/
def closedAtFills : List Fill := [mkFill "in" 1 (-100)]

/-- Record around `closedAtFills` with an explicit close marker. -/
def closedAtRec : TradeRec := ⟨none, none, some "2023-03-01", some closedAtFills⟩

/-- Long trade: Enter 2 @100, Exit 2 @120, stop 90. -/
def rMultipleFills : List Fill := [mkFill "in" 2 (-200), mkFill "out" (-2) 240]

/-- Record around `rMultipleFills`. -/
def rMultipleRec : TradeRec := ⟨some "long", some (.fin 90), none, some rMultipleFills⟩

/-- A single fill whose timestamp is exactly the Unix epoch. -/
def epochFills : List Fill := [mkFillT "in" "1970-01-01T00:00:00.000Z" 1 (-100)]

/-- Record around `epochFills`. -/
def epochRec : TradeRec := ⟨none, none, none, some epochFills⟩

/-- One unparsable timestamp next to one valid timestamp. -/
def mixedTimeFills : List Fill :=
  [mkFillT "in" "not-a-date" 1 (-100), mkFillT "out" "2023-02-01T10:00:00.000Z" 0 0]

/-- Record around `mixedTimeFills`. -/
def mixedTimeRec : TradeRec := ⟨none, none, none, some mixedTimeFills⟩

/-- The `new Date()` stand-in for the `buildFill` examples. -/
def d0 : JSDate := ⟨2023, 0, 1, 10, 0⟩

/-- `buildFill` options: direction +1, Enter, amount 2, price 100. -/
def rtOptsPrice : BuildOpts := ⟨.fin 1, .inn, .fin 2, some (.fin 100), none, some d0, none, []⟩

/-- Same options but with the derived quote −200 supplied instead of
the price. -/
def rtOptsQuote : BuildOpts := ⟨.fin 1, .inn, .fin 2, none, some (.fin (-200)), some d0, none, []⟩

/-- A fill with a missing side. -/
def noSideFill : Fill := ⟨none, some "2023-02-01T10:00:00.000Z", some (.fin 3), some (.fin (-5)), some (.fin 0), none, []⟩

/-- A fill with an unknown non-empty side string. -/
def oddSideFill : Fill := ⟨some "xyz", some "2023-02-01T10:00:00.000Z", some (.fin 3), some (.fin (-5)), some (.fin 0), none, []⟩

/-! General lemmas about the embedding. -/

lemma mround_pos_iff (y : ℚ) : 0 < mround y ↔ 1 / 2 ≤ y := by
  unfold mround
  rw [Int.lt_iff_add_one_le, zero_add, Int.le_floor]
  push_cast
  constructor <;> intro h <;> linarith

lemma mround_neg_iff (y : ℚ) : mround y < 0 ↔ y < -(1 / 2) := by
  unfold mround
  rw [show (0 : ℤ) = ((0 : ℤ)) from rfl, Int.floor_lt]
  push_cast
  constructor <;> intro h <;> linarith

lemma rnd10_eq_zero_iff (x : ℚ) : rnd10 x = 0 ↔ mround (x * 10 ^ 10) = 0 := by
  unfold rnd10 roundQ
  constructor
  · intro h
    have h10 : (10 : ℚ) ^ 10 ≠ 0 := by norm_num
    have := (div_eq_zero_iff.mp h).resolve_right h10
    exact_mod_cast this
  · intro h
    rw [h]
    simp

/-- Rounding a value and rounding its negation can never both land on
the same (nonzero) side of zero: if both are nonzero their product is
negative. -/
lemma rnd10_opp_sign (x : ℚ) (h1 : rnd10 x ≠ 0) (h2 : rnd10 (-x) ≠ 0) :
    rnd10 x * rnd10 (-x) < 0 := by
  have hk1 : mround (x * 10 ^ 10) ≠ 0 := fun h => h1 ((rnd10_eq_zero_iff x).mpr h)
  have hk2 : mround (-x * 10 ^ 10) ≠ 0 := fun h => h2 ((rnd10_eq_zero_iff (-x)).mpr h)
  have hmm : -x * 10 ^ 10 = -(x * 10 ^ 10) := by ring
  have key : (mround (x * 10 ^ 10) : ℚ) * (mround (-x * 10 ^ 10) : ℚ) < 0 := by
    rcases lt_trichotomy (mround (x * 10 ^ 10)) 0 with h | h | h
    · have hy : x * 10 ^ 10 < -(1 / 2) := (mround_neg_iff _).1 h
      have hpos : 0 < mround (-x * 10 ^ 10) := by
        apply (mround_pos_iff _).2
        rw [hmm]
        linarith
      have c1 : (mround (x * 10 ^ 10) : ℚ) < 0 := by exact_mod_cast h
      have c2 : (0 : ℚ) < (mround (-x * 10 ^ 10) : ℚ) := by exact_mod_cast hpos
      exact mul_neg_of_neg_of_pos c1 c2
    · exact absurd h hk1
    · have hy : 1 / 2 ≤ x * 10 ^ 10 := (mround_pos_iff _).1 h
      have hneg : mround (-x * 10 ^ 10) < 0 := by
        rcases lt_trichotomy (mround (-x * 10 ^ 10)) 0 with h' | h' | h'
        · exact h'
        · exact absurd h' hk2
        · have := (mround_pos_iff _).1 h'
          rw [hmm] at this
          linarith
      have c1 : (0 : ℚ) < (mround (x * 10 ^ 10) : ℚ) := by exact_mod_cast h
      have c2 : (mround (-x * 10 ^ 10) : ℚ) < 0 := by exact_mod_cast hneg
      exact mul_neg_of_pos_of_neg c1 c2
  unfold rnd10 roundQ
  rw [div_mul_div_comm]
  exact div_neg_of_neg_of_pos key (by positivity)

/-- Unfolding `computeMetrics` on a record with a non-empty fill
list. -/
lemma computeMetrics_of_fills (fm : TradeRec) (now : ℤ) (fills : List Fill)
    (h : fm.fills = some fills) (hne : fills ≠ []) :
    computeMetrics fm now = metricsOfFills fm now fills := by
  cases fills with
  | nil => exact absurd rfl hne
  | cons f fs => simp [computeMetrics, h]

/-- Unfolding `computeMetricsLegacy` on a record with a non-empty
fill list. -/
lemma computeMetricsLegacy_of_fills (fm : TradeRec) (now : ℤ) (fills : List Fill)
    (h : fm.fills = some fills) (hne : fills ≠ []) :
    computeMetricsLegacy fm now = metricsOfFillsLegacy fm now fills := by
  cases fills with
  | nil => exact absurd rfl hne
  | cons f fs => simp [computeMetricsLegacy, h]

/-- A ledger whose fills are all Enter fills leaves the exit
accumulators untouched. -/
lemma foldl_accum_all_in (fills : List Fill) (h : ∀ f ∈ fills, jsSide f = "in")
    (s : Sums) :
    (fills.foldl accumFill s).outB = s.outB ∧ (fills.foldl accumFill s).outQ = s.outQ := by
  induction fills generalizing s with
  | nil => exact ⟨rfl, rfl⟩
  | cons f fs ih =>
    have hf : jsSide f = "in" := h f (List.mem_cons_self f fs)
    have hs : ∀ g ∈ fs, jsSide g = "in" := fun g hg => h g (List.mem_cons_of_mem f hg)
    have hstep : accumFill s f =
        ⟨s.inB + coerceNum f.base, s.inQ + coerceNum f.quote, s.outB, s.outQ⟩ := by
      simp [accumFill, hf]
    simp only [List.foldl_cons, hstep]
    exact ih hs _

/-- The `lastFillAt` reduce is the fold of `max` over the parsed
timestamps. -/
lemma foldl_lastFillStep (fills : List Fill) (a : ℤ) :
    fills.foldl lastFillStep a =
      (fills.filterMap (fun f => dateParse (f.t.getD ""))).foldl max a := by
  induction fills generalizing a with
  | nil => rfl
  | cons f fs ih =>
    simp only [List.foldl_cons, List.filterMap_cons]
    cases h : dateParse (f.t.getD "") with
    | none => simp only [lastFillStep, h, ih]
    | some t => simp only [lastFillStep, h, ih, List.foldl_cons]

/-- A `max`-fold never drops below its accumulator. -/
lemma le_foldl_max (l : List ℤ) (a : ℤ) : a ≤ l.foldl max a := by
  induction l generalizing a with
  | nil => exact le_refl a
  | cons t ts ih => exact le_trans (le_max_left a t) (ih (max a t))

/-- Inversion of a non-null average entry. -/
lemma avgEntryOf_some (s : Sums) (a : ℚ) (h : avgEntryOf s = some a) :
    s.inB ≠ 0 ∧ a = |s.inQ| / |s.inB| := by
  unfold avgEntryOf at h
  by_cases h1 : s.inB = 0
  · rw [if_neg (not_not.mpr h1)] at h
    exact absurd h (by simp)
  · rw [if_pos h1] at h
    exact ⟨h1, (Option.some.inj h).symm⟩

/-- Inversion of a non-null r-multiple. -/
lemma rMultipleOf_some (stop : Option JNum) (ae : Option ℚ) (xu : ℚ) (re : Option ℚ)
    (v : ℚ) (h : rMultipleOf stop ae xu re = some v) :
    ∃ sv a, stop = some (.fin sv) ∧ ae = some a ∧ xu ≠ 0 ∧ 0 < |a - sv| ∧
      v = rnd10 (re.getD 0 / (|a - sv| * xu)) := by
  cases stop with
  | none => simp [rMultipleOf] at h
  | some jn =>
    cases jn with
    | nan => simp [rMultipleOf] at h
    | fin sv =>
      cases ae with
      | none => simp [rMultipleOf] at h
      | some a =>
        simp only [rMultipleOf] at h
        by_cases h1 : xu = 0
        · rw [if_neg (not_not.mpr h1)] at h
          exact absurd h (by simp)
        · rw [if_pos h1] at h
          by_cases h2 : 0 < |a - sv|
          · rw [if_pos h2] at h
            exact ⟨sv, a, rfl, rfl, h1, h2, (Option.some.inj h).symm⟩
          · rw [if_neg h2] at h
            exact absurd h (by simp)

/-! Claim theorems. -/

/-- C4: on a record whose fill sequence is empty or absent,
`computeMetrics` returns status "open" with position, avg_entry,
avg_exit, realized_pnl, r_multiple and win all null, and the returned
object carries neither a `last_fill_at` nor a `computed_at` field. -/
theorem computeMetrics_no_fills (fm : TradeRec) (now : ℤ)
    (h : fm.fills = none ∨ fm.fills = some []) :
    computeMetrics fm now =
      { status := "open", position := none, avg_entry := none, avg_exit := none,
        realized_pnl := none, r_multiple := none, win := none,
        last_fill_at := none, computed_at := none } := by
  rcases h with h | h <;> simp [computeMetrics, h, emptyMetrics]

/-- Witness for C4 at a record with no fills field. -/
theorem computeMetrics_no_fills_witness :
    computeMetrics noFillsRec 0 =
      { status := "open", position := none, avg_entry := none, avg_exit := none,
        realized_pnl := none, r_multiple := none, win := none,
        last_fill_at := none, computed_at := none } :=
  computeMetrics_no_fills noFillsRec 0 (Or.inl rfl)

/-- C9: two calls of `computeMetrics` on the same record agree on
every field except `computed_at` (the wall-clock instants `t1`, `t2`
are the only nondeterministic input). -/
theorem computeMetrics_idempotent (fm : TradeRec) (t1 t2 : ℤ) :
    { computeMetrics fm t1 with computed_at := none } =
    { computeMetrics fm t2 with computed_at := none } := by
  cases hf : fm.fills with
  | none => simp [computeMetrics, hf]
  | some l =>
    cases l with
    | nil => simp [computeMetrics, hf]
    | cons f fs => simp [computeMetrics, hf, metricsOfFills]

/-- C10: in the aggregation loop of `computeMetrics`, a fill whose
side is missing or empty is accumulated as an Enter fill (base and
quote join inB/inQ), a fill whose side is "in" likewise, and any
other non-empty side string is accumulated as an Exit fill; the full
aggregation is the left fold of this step from zero sums. -/
theorem side_classification :
    (∀ (s : Sums) (f : Fill), (f.side = none ∨ f.side = some "") →
      accumFill s f = ⟨s.inB + coerceNum f.base, s.inQ + coerceNum f.quote, s.outB, s.outQ⟩) ∧
    (∀ (s : Sums) (f : Fill), f.side = some "in" →
      accumFill s f = ⟨s.inB + coerceNum f.base, s.inQ + coerceNum f.quote, s.outB, s.outQ⟩) ∧
    (∀ (s : Sums) (f : Fill) (str : String), f.side = some str → str ≠ "" → str ≠ "in" →
      accumFill s f = ⟨s.inB, s.inQ, s.outB + coerceNum f.base, s.outQ + coerceNum f.quote⟩) ∧
    (∀ fills : List Fill, sumFills fills = fills.foldl accumFill ⟨0, 0, 0, 0⟩) := by
  refine ⟨?_, ?_, ?_, fun _ => rfl⟩
  · intro s f h
    rcases h with h | h <;> simp [accumFill, jsSide, h]
  · intro s f h
    simp [accumFill, jsSide, h]
  · intro s f str h hne hnin
    simp [accumFill, jsSide, h, hne, hnin]

/-- Witness for C10: a missing-side fill joins the entry accumulators,
an unknown-side fill joins the exit accumulators. -/
theorem side_classification_witness :
    accumFill ⟨0, 0, 0, 0⟩ noSideFill =
      ⟨0 + coerceNum noSideFill.base, 0 + coerceNum noSideFill.quote, 0, 0⟩ ∧
    accumFill ⟨0, 0, 0, 0⟩ oddSideFill =
      ⟨0, 0, 0 + coerceNum oddSideFill.base, 0 + coerceNum oddSideFill.quote⟩ :=
  ⟨side_classification.1 ⟨0, 0, 0, 0⟩ noSideFill (Or.inl rfl),
   side_classification.2.2.1 ⟨0, 0, 0, 0⟩ oddSideFill "xyz" rfl (by decide) (by decide)⟩

/-- C3: `computeMetrics` is total — it is a plain function defined on
every record shape, always returning one of the two statuses; a
missing fills field yields the empty snapshot, a malformed (NaN) or
missing numeric field coerces to 0, a missing `initial_stop` yields a
null `r_multiple`, and an Enter-only ledger (with arbitrary negative
or zero amounts) yields null `realized_pnl`, `avg_exit` and `win`
rather than an error. -/
theorem computeMetrics_total_degrades :
    (∀ (fm : TradeRec) (now : ℤ),
      (computeMetrics fm now).status = "open" ∨ (computeMetrics fm now).status = "closed") ∧
    (coerceNum none = 0 ∧ coerceNum (some JNum.nan) = 0) ∧
    (∀ (fm : TradeRec) (now : ℤ), fm.fills = none → computeMetrics fm now = emptyMetrics) ∧
    (∀ (fm : TradeRec) (now : ℤ), fm.initial_stop = none →
      (computeMetrics fm now).r_multiple = none) ∧
    (∀ (fm : TradeRec) (now : ℤ) (fills : List Fill), fm.fills = some fills →
      (∀ f ∈ fills, jsSide f = "in") →
      (computeMetrics fm now).realized_pnl = none ∧
      (computeMetrics fm now).avg_exit = none ∧
      (computeMetrics fm now).win = none) := by
  refine ⟨?_, ⟨rfl, rfl⟩, ?_, ?_, ?_⟩
  · intro fm now
    cases hf : fm.fills with
    | none => exact Or.inl (by simp [computeMetrics, hf, emptyMetrics])
    | some l =>
      cases l with
      | nil => exact Or.inl (by simp [computeMetrics, hf, emptyMetrics])
      | cons f fs =>
        by_cases hc : positionOf (sumFills (f :: fs)) = 0 ∨ truthyStr fm.closed_at
        · exact Or.inr (by simp [computeMetrics, hf, metricsOfFills, statusOf, hc])
        · exact Or.inl (by simp [computeMetrics, hf, metricsOfFills, statusOf, hc])
  · intro fm now h
    simp [computeMetrics, h]
  · intro fm now h
    cases hf : fm.fills with
    | none => simp [computeMetrics, hf, emptyMetrics, rMultipleOf]
    | some l =>
      cases l with
      | nil => simp [computeMetrics, hf, emptyMetrics, rMultipleOf]
      | cons f fs => simp [computeMetrics, hf, metricsOfFills, h, rMultipleOf]
  · intro fm now fills hf hin
    have hout := foldl_accum_all_in fills hin ⟨0, 0, 0, 0⟩
    cases fills with
    | nil => simp [computeMetrics, hf, emptyMetrics]
    | cons f fs =>
      have houtB : (sumFills (f :: fs)).outB = 0 := hout.1
      refine ⟨?_, ?_, ?_⟩ <;>
        simp [computeMetrics, hf, metricsOfFills, realizedOf, avgExitOf, houtB]

/-- Witness for C3 at an Enter-only record with a negative base and
zero quote and no stop. -/
theorem computeMetrics_total_degrades_witness :
    (computeMetrics enterOnlyRec 0).r_multiple = none ∧
    (computeMetrics enterOnlyRec 0).realized_pnl = none ∧
    (computeMetrics enterOnlyRec 0).avg_exit = none ∧
    (computeMetrics enterOnlyRec 0).win = none :=
  ⟨computeMetrics_total_degrades.2.2.2.1 enterOnlyRec 0 rfl,
   (computeMetrics_total_degrades.2.2.2.2 enterOnlyRec 0 enterOnlyFills rfl
      (by decide)).1,
   (computeMetrics_total_degrades.2.2.2.2 enterOnlyRec 0 enterOnlyFills rfl
      (by decide)).2.1,
   (computeMetrics_total_degrades.2.2.2.2 enterOnlyRec 0 enterOnlyFills rfl
      (by decide)).2.2⟩

/-- C5 counterexample: `closed_at` present but equal to the empty
string, with a nonzero position — the claim ("closedAt field is
present" forces status closed) demands "closed", the code returns
"open" because `!!""` is false. -/
theorem status_empty_closed_at_cex :
    emptyClosedAtRec.closed_at = some "" ∧
    (computeMetrics emptyClosedAtRec 0).position = some 1 ∧
    (computeMetrics emptyClosedAtRec 0).status = "open" := by
  refine ⟨rfl, ?_, ?_⟩ <;>
    simp +decide [computeMetrics, emptyClosedAtRec, metricsOfFills, mkFill, mkFillT,
      sumFills, accumFill, jsSide, coerceNum, statusOf, positionOf, truthyStr,
      rnd10, roundQ, mround] <;> norm_num

/-- C5 (amended): for a non-empty fill sequence the status is
"closed" iff the rounded position is exactly 0 or `closed_at` is
present and truthy (non-empty); in particular a truthy `closed_at`
forces "closed" regardless of position. -/
theorem status_closed_iff :
    (∀ (fm : TradeRec) (now : ℤ) (fills : List Fill), fm.fills = some fills → fills ≠ [] →
      ((computeMetrics fm now).status = "closed" ↔
        (positionOf (sumFills fills) = 0 ∨ truthyStr fm.closed_at = true))) ∧
    (∀ (fm : TradeRec) (now : ℤ) (fills : List Fill), fm.fills = some fills → fills ≠ [] →
      truthyStr fm.closed_at = true → (computeMetrics fm now).status = "closed") := by
  have main : ∀ (fm : TradeRec) (now : ℤ) (fills : List Fill), fm.fills = some fills →
      fills ≠ [] →
      ((computeMetrics fm now).status = "closed" ↔
        (positionOf (sumFills fills) = 0 ∨ truthyStr fm.closed_at = true)) := by
    intro fm now fills hf hne
    rw [computeMetrics_of_fills fm now fills hf hne]
    show statusOf fm.closed_at (positionOf (sumFills fills)) = "closed" ↔ _
    unfold statusOf
    by_cases hc : positionOf (sumFills fills) = 0 ∨ truthyStr fm.closed_at
    · simp [hc]
    · simp [hc]
  exact ⟨main, fun fm now fills hf hne ht =>
    (main fm now fills hf hne).mpr (Or.inr ht)⟩

/-- Witness for C5 at a record with nonzero position and a non-empty
`closed_at`. -/
theorem status_closed_iff_witness :
    (computeMetrics closedAtRec 0).status = "closed" :=
  status_closed_iff.2 closedAtRec 0 closedAtFills rfl (by decide) (by decide)

/-- C8: `buildFill` with direction +1, Enter, amount 2, price 100
yields a fill with price 100, base 2 and quote = −base·price = −200
(exactly, rounding included); rebuilding with the derived quote −200
in place of the price reproduces price 100. -/
theorem buildFill_roundtrip :
    coerceNum (buildFill d0 rtOptsPrice).price = 100 ∧
    coerceNum (buildFill d0 rtOptsPrice).base = 2 ∧
    (buildFill d0 rtOptsPrice).quote = some (.fin (-200)) ∧
    coerceNum (buildFill d0 rtOptsPrice).quote =
      -(coerceNum (buildFill d0 rtOptsPrice).base) * 100 ∧
    coerceNum (buildFill d0 rtOptsQuote).price = 100 := by
  refine ⟨?_, ?_, ?_, ?_, ?_⟩ <;>
    simp +decide [buildFill, rtOptsPrice, rtOptsQuote, d0, jor0, jmul, jabsJ, jdiv,
      jgt0, jsRound, coerceNum, rnd10, roundQ, mround, sideStr] <;> norm_num

/-- C1 counterexample: a ledger containing an Exit fill (side "out")
and nonzero entered base, whose exited base sums to 0 — the claim
demands `realized_pnl = sign · (|outQuote| − avgEntry·exitedUnits)`
(here 50), but the code leaves it null because `exitedUnits` is 0. -/
theorem realized_pnl_zero_exit_base_cex :
    mkFill "out" 0 50 ∈ zeroExitFills ∧
    jsSide (mkFill "out" 0 50) ≠ "in" ∧
    (sumFills zeroExitFills).inB = 1 ∧
    (computeMetrics zeroExitRec 0).realized_pnl = none := by
  refine ⟨List.mem_cons_of_mem _ (List.mem_cons_self _ _), by decide, ?_, ?_⟩ <;>
    simp +decide [computeMetrics, zeroExitRec, zeroExitFills, metricsOfFills, mkFill,
      mkFillT, sumFills, accumFill, jsSide, coerceNum, realizedOf]

/-- C1 (amended): whenever the accumulated exited base and entered
base are both nonzero, `computeMetrics` sets `realized_pnl` to
`round(dir · (|outQ| − (|inQ|/|inB|)·|outB|))` where the direction
sign is +1 for action "long", −1 for action "short", and the sign of
`inB` when the action is absent; in particular the short trade
Enter 1 @100 / Exit 1 @80 realizes +20 and wins. -/
theorem realized_pnl_directional :
    (∀ (fm : TradeRec) (now : ℤ) (fills : List Fill),
      fm.fills = some fills →
      (sumFills fills).outB ≠ 0 → (sumFills fills).inB ≠ 0 →
      (computeMetrics fm now).realized_pnl =
        some (rnd10 (dirOf fm.action (sumFills fills).inB *
          (|(sumFills fills).outQ| -
            (|(sumFills fills).inQ| / |(sumFills fills).inB|) * |(sumFills fills).outB|)))) ∧
    (∀ b : ℚ, dirOf (some "long") b = 1) ∧
    (∀ b : ℚ, dirOf (some "short") b = -1) ∧
    (∀ b : ℚ, dirOf none b = if b < 0 then -1 else 1) ∧
    ((computeMetrics shortProfitRec 0).realized_pnl = some 20 ∧
     (computeMetrics shortProfitRec 0).win = some true) := by
  refine ⟨?_, fun b => rfl, fun b => rfl, fun b => rfl, ?_, ?_⟩
  · intro fm now fills hf hout hin
    have hne : fills ≠ [] := by
      intro h
      rw [h] at hout
      exact hout rfl
    rw [computeMetrics_of_fills fm now fills hf hne]
    simp only [metricsOfFills]
    simp [realizedOf, directionalDiff, hout, hin]
  · simp +decide [computeMetrics, shortProfitRec, shortProfitFills, metricsOfFills,
      mkFill, mkFillT, sumFills, accumFill, jsSide, coerceNum, realizedOf, dirOf,
      directionalDiff, rnd10, roundQ, mround]
    norm_num
  · simp +decide [computeMetrics, shortProfitRec, shortProfitFills, metricsOfFills,
      mkFill, mkFillT, sumFills, accumFill, jsSide, coerceNum, realizedOf, dirOf,
      directionalDiff, rnd10, roundQ, mround]
    norm_num

/-- Witness for C1 (amended part) at the short-profit record. -/
theorem realized_pnl_directional_witness :
    (computeMetrics shortProfitRec 0).realized_pnl =
      some (rnd10 (dirOf shortProfitRec.action (sumFills shortProfitFills).inB *
        (|(sumFills shortProfitFills).outQ| -
          (|(sumFills shortProfitFills).inQ| / |(sumFills shortProfitFills).inB|) *
            |(sumFills shortProfitFills).outB|))) :=
  realized_pnl_directional.1 shortProfitRec 0 shortProfitFills rfl
    (by simp +decide [sumFills, accumFill, shortProfitFills, mkFill, mkFillT, jsSide, coerceNum])
    (by simp +decide [sumFills, accumFill, shortProfitFills, mkFill, mkFillT, jsSide, coerceNum])

/-- C6: a non-null `r_multiple` forces a present finite
`initial_stop`, nonzero entered base (non-null average entry),
positive exited units and positive risk-per-unit, and then equals
`round(realizedPnl / (riskPerUnit · exitedUnits))`; on the long trade
Enter 2 @100, Exit 2 @120 with stop 90 it is exactly 2. -/
theorem r_multiple_characterization :
    (∀ (fm : TradeRec) (now : ℤ) (v : ℚ),
      (computeMetrics fm now).r_multiple = some v →
      ∃ (fills : List Fill) (sv r : ℚ),
        fm.fills = some fills ∧
        fm.initial_stop = some (.fin sv) ∧
        (sumFills fills).inB ≠ 0 ∧
        0 < |(sumFills fills).outB| ∧
        0 < |(|(sumFills fills).inQ| / |(sumFills fills).inB|) - sv| ∧
        (computeMetrics fm now).realized_pnl = some r ∧
        v = rnd10 (r / (|(|(sumFills fills).inQ| / |(sumFills fills).inB|) - sv| *
          |(sumFills fills).outB|))) ∧
    (computeMetrics rMultipleRec 0).r_multiple = some 2 := by
  constructor
  · intro fm now v h
    cases hf : fm.fills with
    | none => simp [computeMetrics, hf, emptyMetrics] at h
    | some l =>
      cases l with
      | nil => simp [computeMetrics, hf, emptyMetrics] at h
      | cons f fs =>
        have hne : (f :: fs) ≠ ([] : List Fill) := by simp
        rw [computeMetrics_of_fills fm now (f :: fs) hf hne] at h ⊢
        simp only [metricsOfFills] at h ⊢
        obtain ⟨sv, a, hstop, hae, hxu, hrpu, hv⟩ :=
          rMultipleOf_some fm.initial_stop (avgEntryOf (sumFills (f :: fs)))
            |(sumFills (f :: fs)).outB| (realizedOf fm.action (sumFills (f :: fs))) v h
        obtain ⟨hin, ha⟩ := avgEntryOf_some (sumFills (f :: fs)) a hae
        have hre : realizedOf fm.action (sumFills (f :: fs)) =
            some (rnd10 (dirOf fm.action (sumFills (f :: fs)).inB *
              directionalDiff (sumFills (f :: fs)))) := by
          unfold realizedOf
          rw [if_pos ⟨hxu, hin⟩]
        refine ⟨f :: fs, sv,
          rnd10 (dirOf fm.action (sumFills (f :: fs)).inB *
            directionalDiff (sumFills (f :: fs))), rfl, hstop, hin, ?_, ?_, hre, ?_⟩
        · exact abs_pos.mpr (fun h0 => hxu (by rw [h0]; simp))
        · rw [← ha]
          exact hrpu
        · rw [hv, hre, ← ha]
          simp [directionalDiff]
  · simp +decide [computeMetrics, rMultipleRec, rMultipleFills, metricsOfFills, mkFill,
      mkFillT, sumFills, accumFill, jsSide, coerceNum, rMultipleOf, avgEntryOf,
      realizedOf, dirOf, directionalDiff, rnd10, roundQ, mround]
    norm_num

/-- Witness for C6 at the long trade Enter 2 @100, Exit 2 @120 with
stop 90 (whose r-multiple is 2). -/
theorem r_multiple_characterization_witness :
    ∃ (fills : List Fill) (sv r : ℚ),
      rMultipleRec.fills = some fills ∧
      rMultipleRec.initial_stop = some (.fin sv) ∧
      (sumFills fills).inB ≠ 0 ∧
      0 < |(sumFills fills).outB| ∧
      0 < |(|(sumFills fills).inQ| / |(sumFills fills).inB|) - sv| ∧
      (computeMetrics rMultipleRec 0).realized_pnl = some r ∧
      (2 : ℚ) = rnd10 (r / (|(|(sumFills fills).inQ| / |(sumFills fills).inB|) - sv| *
        |(sumFills fills).outB|)) :=
  r_multiple_characterization.1 rMultipleRec 0 2 r_multiple_characterization.2

/-- C7 counterexample: a single fill timestamped exactly at the Unix
epoch parses to instant 0, yet `last_fill_at` comes back null — the
claim ("equals the maximum of the parseable fill timestamps") demands
the epoch instant here. -/
theorem last_fill_at_epoch_cex :
    dateParse "1970-01-01T00:00:00.000Z" = some 0 ∧
    (computeMetrics epochRec 0).last_fill_at = some none := by
  exact ⟨by decide, by decide⟩

/-- C7 (amended): for a non-empty fill sequence, `last_fill_at` is
the maximum of the fill timestamps that parse (unparsable ones are
skipped and never contribute an epoch/zero value) whenever that
maximum is a positive instant, and is null when nothing parses or the
maximum is at or before the epoch; the underlying reduce is the
`max`-fold over the parsed timestamps, never negative. -/
theorem last_fill_at_max :
    (∀ (fm : TradeRec) (now : ℤ) (fills : List Fill), fm.fills = some fills → fills ≠ [] →
      (computeMetrics fm now).last_fill_at =
        some (if 0 < (fills.filterMap (fun f => dateParse (f.t.getD ""))).foldl max 0
          then some ((fills.filterMap (fun f => dateParse (f.t.getD ""))).foldl max 0)
          else none)) ∧
    (∀ fills : List Fill,
      lastFillMs fills = (fills.filterMap (fun f => dateParse (f.t.getD ""))).foldl max 0 ∧
      0 ≤ lastFillMs fills) := by
  have heq : ∀ fills : List Fill,
      lastFillMs fills = (fills.filterMap (fun f => dateParse (f.t.getD ""))).foldl max 0 :=
    fun fills => foldl_lastFillStep fills 0
  have hge : ∀ fills : List Fill, 0 ≤ lastFillMs fills := by
    intro fills
    rw [heq]
    exact le_foldl_max _ 0
  refine ⟨?_, fun fills => ⟨heq fills, hge fills⟩⟩
  intro fm now fills hf hne
  rw [computeMetrics_of_fills fm now fills hf hne]
  simp only [metricsOfFills]
  rw [← heq fills]
  congr 1
  by_cases h : lastFillMs fills = 0
  · rw [if_neg (not_not.mpr h), if_neg (by rw [h]; exact lt_irrefl 0)]
  · rw [if_pos h, if_pos (lt_of_le_of_ne (hge fills) (Ne.symm h))]

/-- Witness for C7 at a ledger with one unparsable and one valid
timestamp. -/
theorem last_fill_at_max_witness :
    (computeMetrics mixedTimeRec 0).last_fill_at =
      some (if 0 < (mixedTimeFills.filterMap (fun f => dateParse (f.t.getD ""))).foldl max 0
        then some ((mixedTimeFills.filterMap (fun f => dateParse (f.t.getD ""))).foldl max 0)
        else none) :=
  last_fill_at_max.1 mixedTimeRec 0 mixedTimeFills rfl (by decide)

/-- C2 counterexample: a short trade sitting on an exact rounding tie
at the 10th decimal — the direction-aware variant realizes the
nonzero value 10⁻¹⁰ while the legacy variant realizes 0, which is
neither the opposite sign nor the negation. -/
theorem legacy_tie_cex :
    tieRec.action = some "short" ∧
    (computeMetrics tieRec 0).realized_pnl = some (1 / 10000000000) ∧
    ((1 : ℚ) / 10000000000 ≠ 0) ∧
    (computeMetricsLegacy tieRec 0).realized_pnl = some 0 := by
  refine ⟨rfl, ?_, by norm_num, ?_⟩ <;>
    simp +decide [computeMetrics, computeMetricsLegacy, tieRec, tieFills, metricsOfFills,
      metricsOfFillsLegacy, mkFill, mkFillT, sumFills, accumFill, jsSide, coerceNum,
      realizedOf, realizedLegacyOf, dirOf, directionalDiff, rnd10, roundQ, mround] <;>
    norm_num [abs_of_pos]

/-- C2 (amended): on any short trade where both variants return a
nonzero realized PnL, the two values have strictly opposite signs
(their product is negative) — the legacy variant's sign is wrong. -/
theorem legacy_short_sign_flip (fm : TradeRec) (now : ℤ) (r r' : ℚ)
    (ha : fm.action = some "short")
    (h1 : (computeMetrics fm now).realized_pnl = some r)
    (h2 : (computeMetricsLegacy fm now).realized_pnl = some r')
    (hr : r ≠ 0) (hr' : r' ≠ 0) : r * r' < 0 := by
  cases hf : fm.fills with
  | none => simp [computeMetrics, hf, emptyMetrics] at h1
  | some l =>
    cases l with
    | nil => simp [computeMetrics, hf, emptyMetrics] at h1
    | cons f fs =>
      have hne : (f :: fs) ≠ ([] : List Fill) := by simp
      rw [computeMetrics_of_fills fm now (f :: fs) hf hne] at h1
      rw [computeMetricsLegacy_of_fills fm now (f :: fs) hf hne] at h2
      simp only [metricsOfFills] at h1
      simp only [metricsOfFillsLegacy] at h2
      unfold realizedOf at h1
      unfold realizedLegacyOf at h2
      by_cases hc : |(sumFills (f :: fs)).outB| ≠ 0 ∧ (sumFills (f :: fs)).inB ≠ 0
      · rw [if_pos hc] at h1 h2
        have hdir : dirOf fm.action (sumFills (f :: fs)).inB = -1 := by
          rw [ha]; simp [dirOf]
        rw [hdir, neg_one_mul] at h1
        have hr1 : r = rnd10 (-(directionalDiff (sumFills (f :: fs)))) :=
          (Option.some.inj h1).symm
        have hr2 : r' = rnd10 (directionalDiff (sumFills (f :: fs))) :=
          (Option.some.inj h2).symm
        have hkey := rnd10_opp_sign (directionalDiff (sumFills (f :: fs)))
          (by rw [← hr2]; exact hr') (by rw [← hr1]; exact hr)
        rw [hr1, hr2, mul_comm]
        exact hkey
      · rw [if_neg hc] at h1
        exact absurd h1 (by simp)

/-- Witness for C2's sign-flip theorem at the short trade
Enter 1 @100 / Exit 1 @80, where the direction-aware variant
realizes +20 and the legacy variant −20. -/
theorem legacy_short_sign_flip_witness : (20 : ℚ) * (-20) < 0 :=
  legacy_short_sign_flip shortProfitRec 0 20 (-20) rfl
    (by
      simp +decide [computeMetrics, shortProfitRec, shortProfitFills, metricsOfFills,
        mkFill, mkFillT, sumFills, accumFill, jsSide, coerceNum, realizedOf, dirOf,
        directionalDiff, rnd10, roundQ, mround]
      norm_num)
    (by
      simp +decide [computeMetricsLegacy, shortProfitRec, shortProfitFills,
        metricsOfFillsLegacy, mkFill, mkFillT, sumFills, accumFill, jsSide, coerceNum,
        realizedLegacyOf, directionalDiff, rnd10, roundQ, mround]
      norm_num)
    (by norm_num) (by norm_num)

end AceTrading
